import Mathlib

/-!
Verification of `AzQtComponents::ElidingLabel`
(`Code/Framework/AzQtComponents/AzQtComponents/Components/Widgets/ElidingLabel.cpp`).

The widget is shallowly embedded: the toolkit services the code calls into
(rich-text detection, rich-text document parsing and serialization, font
metrics, the plain-text `elidedText` helper, the default minimum size hint)
are fields of an `Env` record, and the widget's member variables are fields
of a `LabelState` record.  Each public operation is a function
`... → LabelState × List Ev` returning the new state together with the
signals/requests it emitted, mirroring the C++ member functions line by
line.  Pixel widths are integers; the width of a string is the sum of the
per-character advances supplied by the environment, matching the use of
`QFontMetrics::horizontalAdvance` and the single-line document width.
-/

namespace AzQtComponents

/-- `Qt::TextElideMode`. -/
inductive ElideMode where
  | elideLeft
  | elideRight
  | elideMiddle
  | elideNone
deriving DecidableEq, Repr

/-- A `QRect` as used by the widget (integer geometry, Qt conventions:
`right = left + width - 1`). -/
structure Rect where
  left : Int
  top : Int
  width : Int
  height : Int
deriving DecidableEq, Repr

/-- `QRect::right()`, which in Qt is `left() + width() - 1`. -/
def Rect.right (r : Rect) : Int := r.left + r.width - 1

/-- A `QSize`. -/
structure Size where
  width : Int
  height : Int
deriving DecidableEq, Repr

/-- `QSize::boundedTo`: componentwise minimum. -/
def Size.boundedTo (a b : Size) : Size := ⟨min a.width b.width, min a.height b.height⟩

/-- Signals emitted / toolkit requests issued by the widget's operations:
the `elisionRequired(bool)` signal, `updateGeometry()` and `update()`. -/
inductive Ev where
  | elisionRequired (geometryUpdateRequired : Bool)
  | updateGeometry
  | update
deriving DecidableEq, Repr

/-- The toolkit services the widget calls into.  `charW` is the per-character
advance of the widget's font (used both by `QFontMetrics::horizontalAdvance`
and, summed, as the single-line width of a rich-text document laid out with
zero margin and wrapping off).  `parse` is the character content of
`QTextDocument::setHtml`; `serialize` is `QTextDocument::toHtml`.
`plainElided` is `QFontMetrics::elidedText`. -/
structure Env where
  mightBeRichText : String → Bool
  parse : String → List Char
  serialize : List Char → String
  charW : Char → Int
  plainElided : String → ElideMode → Int → String
  defaultMinSizeHint : Size

/-- The widget's member variables, plus the state of the underlying `QLabel`
(`labelText` is what `QLabel::setText` received, i.e. the displayed text;
`toolTip` is what `setToolTip` received) and the current text rectangle
(the value `TextRect()` computes from the widget's geometry). -/
structure LabelState where
  text : String
  description : String
  elideMode : ElideMode
  elidedText : String
  filterString : String
  filterRegex : String
  metricsText : String
  labelText : String
  toolTip : String
  textRect : Rect
deriving Repr

/-- Sum of per-character advances: the measured width of a piece of text. -/
def widthSum (w : Char → Int) (l : List Char) : Int := (l.map w).sum

/-- The ellipsis string inserted by the rich-text elision path. -/
def ellipsis : String := "..."

/-- The deletion loop of `ElidingLabel::elide`, phrased on the reversed
document content (head = character immediately before the end-of-document
cursor): while the content width plus the reserved ellipsis width exceeds
the available width and the cursor is not at the start, delete the
character before the cursor. -/
def elideLoopRev (w : Char → Int) (maxW ellW : Int) : List Char → List Char
  | [] => []
  | c :: rest =>
    if widthSum w (c :: rest) + ellW > maxW then elideLoopRev w maxW ellW rest
    else c :: rest

/-- The deletion loop on the document content in document order. -/
def elideLoop (w : Char → Int) (maxW ellW : Int) (content : List Char) : List Char :=
  (elideLoopRev w maxW ellW content.reverse).reverse

/-- The elided text computed by `ElidingLabel::elide` from the full text,
the elide mode and the available width `TextRect().width()`. -/
def computeElided (env : Env) (text : String) (mode : ElideMode) (maxW : Int) : String :=
  if env.mightBeRichText text then
    let content := env.parse text
    if widthSum env.charW content ≤ maxW then
      text
    else
      let ellW := if mode = ElideMode.elideRight then widthSum env.charW ellipsis.toList else 0
      let remaining := elideLoop env.charW maxW ellW content
      let finalContent :=
        if mode = ElideMode.elideRight then remaining ++ ellipsis.toList else remaining
      env.serialize finalContent
  else
    env.plainElided text mode maxW

/-- The tooltip chosen at the end of `ElidingLabel::elide`. -/
def tooltipFor (text description elided : String) : String :=
  if elided ≠ text then
    if description = "" then text else text ++ "\n" ++ description
  else
    description

/-- `ElidingLabel::elide`: recompute the elided text, push it to the
underlying label, and set the tooltip. -/
def elide (env : Env) (s : LabelState) : LabelState :=
  let e := computeElided env s.text s.elideMode s.textRect.width
  { s with elidedText := e, labelText := e, toolTip := tooltipFor s.text s.description e }

/-- `ElidingLabel::handleElision`: clear the cached elided text, recompute,
and call `updateGeometry()` when required. -/
def handleElision (env : Env) (geometryUpdateRequired : Bool) (s : LabelState) :
    LabelState × List Ev :=
  let s1 := { s with elidedText := "" }
  (elide env s1, if geometryUpdateRequired then [Ev.updateGeometry] else [])

/-- `ElidingLabel::setText`: no-op when the text is unchanged; otherwise
store, propagate to the metrics label and emit `elisionRequired(true)`
(directly connected to `handleElision`). -/
def setText (env : Env) (t : String) (s : LabelState) : LabelState × List Ev :=
  if t = s.text then
    (s, [])
  else
    let s1 := { s with text := t, metricsText := t }
    let p := handleElision env true s1
    (p.1, Ev.elisionRequired true :: p.2)

/-- `ElidingLabel::setDescription`. -/
def setDescription (d : String) (s : LabelState) : LabelState × List Ev :=
  ({ s with description := d }, [])

/-- `ElidingLabel::setElideMode`: store the new mode and request a repaint;
no elision recompute. -/
def setElideMode (m : ElideMode) (s : LabelState) : LabelState × List Ev :=
  if m = s.elideMode then (s, [])
  else ({ s with elideMode := m }, [Ev.update])

/-- `ElidingLabel::resizeEvent`: the widget geometry (hence `TextRect()`)
has changed; emit `elisionRequired(false)`. -/
def resizeEvent (env : Env) (newRect : Rect) (s : LabelState) : LabelState × List Ev :=
  let p := handleElision env false { s with textRect := newRect }
  (p.1, Ev.elisionRequired false :: p.2)

/-- `ElidingLabel::setFilter`: store the filter string and compile the
case-insensitive matcher from it. -/
def setFilter (f : String) (s : LabelState) : LabelState × List Ev :=
  ({ s with filterString := f, filterRegex := f }, [])

/-- The widget right after the constructor body before `setText` runs:
elide mode `ElideRight`, empty strings everywhere, hidden metrics label. -/
def initState (r : Rect) : LabelState :=
  { text := "", description := "", elideMode := ElideMode.elideRight, elidedText := ""
    filterString := "", filterRegex := "", metricsText := "", labelText := ""
    toolTip := "", textRect := r }

/-- The constructor `ElidingLabel(text, parent)`: initialize members, then
`setText(text)`. -/
def construct (env : Env) (text : String) (r : Rect) : LabelState × List Ev :=
  setText env text (initState r)

/-- `INT_MAX` (`std::numeric_limits<int>::max()`). -/
def intMax : Int := 2 ^ 31 - 1

/-- `ElidingLabel::minimumSizeHint`: the default hint bounded to width 0,
height `INT_MAX`. -/
def minimumSizeHint (env : Env) : Size :=
  env.defaultMinSizeHint.boundedTo ⟨0, intMax⟩

/-- Case-insensitive match of `pat` against `hay` at offset `i`
(`QRegExp` with `Qt::CaseInsensitive` on a literal pattern). -/
def matchAt (hay pat : List Char) (i : Nat) : Bool :=
  decide (i + pat.length ≤ hay.length) &&
    decide (((hay.drop i).take pat.length).map Char.toLower = pat.map Char.toLower)

/-- `QString::indexOf(regex, from)`: the first offset `≥ start` at which the
pattern matches, if any. -/
def indexFrom (hay pat : List Char) (start : Nat) : Option Nat :=
  (List.range (hay.length + 1)).find? fun i => decide (start ≤ i) && matchAt hay pat i

/-- The scan loop of `ElidingLabel::paintEvent`: collect every match offset,
restarting each search at the previous match's offset plus one.  The fuel is
an upper bound on the number of iterations (offsets strictly increase and
stay below `hay.length + 1`, so `hay.length + 1` fuel is never exhausted). -/
def scanAux (hay pat : List Char) : Nat → Nat → List Nat
  | _, 0 => []
  | start, fuel + 1 =>
    match indexFrom hay pat start with
    | none => []
    | some i => i :: scanAux hay pat (i + 1) fuel

/-- All match offsets found by the paint loop, in order. -/
def matchIndices (hay pat : String) : List Nat :=
  scanAux hay.toList pat.toList 0 (hay.toList.length + 1)

/-- The highlight rectangle the paint loop produces for the match at offset
`i` of the displayed text, or `none` when the draw is skipped. -/
def rectForMatch (env : Env) (s : LabelState) (i : Nat) : Option Rect :=
  let chars := s.labelText.toList
  let preSelectedText := chars.take i
  let preSelectedTextLength := widthSum env.charW preSelectedText
  let selectedText := (chars.drop i).take s.filterString.length
  let selectedTextLength := widthSum env.charW selectedText
  let leftSpot := s.textRect.left + preSelectedTextLength
  if leftSpot < s.textRect.right then
    let visibleLength := min selectedTextLength (s.textRect.right - leftSpot)
    some { left := s.textRect.left + preSelectedTextLength, top := s.textRect.top
           width := visibleLength, height := s.textRect.height }
  else
    none

/-- `ElidingLabel::paintEvent`, modelled as the list of highlight rectangles
filled before the default label painting: empty filter takes the fast path
and fills nothing. -/
def paintEvent (env : Env) (s : LabelState) : List Rect :=
  if s.filterString = "" then []
  else (matchIndices s.labelText s.filterRegex).filterMap (rectForMatch env s)

/-- The display invariant claimed by the spec: the displayed text equals the
elision computation applied to the current full text, available width and
elide mode. -/
def DisplayInv (env : Env) (s : LabelState) : Prop :=
  s.labelText = computeElided env s.text s.elideMode s.textRect.width

instance (env : Env) (s : LabelState) : Decidable (DisplayInv env s) := by
  unfold DisplayInv; infer_instance

/-- A concrete environment for witnesses and counterexamples: every input is
detected as rich text, the document content is the character list of the
markup, serialization rebuilds the string, and every character is one pixel
wide. -/
def env0 : Env :=
  { mightBeRichText := fun _ => true
    parse := String.toList
    serialize := fun l => String.mk l
    charW := fun _ => 1
    plainElided := fun t _ _ => t
    defaultMinSizeHint := ⟨37, 13⟩ }

/-- A concrete text rectangle 2 pixels wide. -/
def rect0 : Rect := ⟨0, 0, 2, 10⟩

theorem widthSum_cons (w : Char → Int) (c : Char) (l : List Char) :
    widthSum w (c :: l) = w c + widthSum w l := by
  simp [widthSum]

theorem widthSum_reverse (w : Char → Int) (l : List Char) :
    widthSum w l.reverse = widthSum w l := by
  simp [widthSum, List.map_reverse, List.sum_reverse]

theorem widthSum_nonneg (w : Char → Int) (l : List Char) (h : ∀ c ∈ l, 0 ≤ w c) :
    0 ≤ widthSum w l := by
  induction l with
  | nil => simp [widthSum]
  | cons c rest ih =>
    rw [widthSum_cons]
    have h1 : 0 ≤ w c := h c (List.mem_cons_self c rest)
    have h2 : 0 ≤ widthSum w rest := ih fun x hx => h x (List.mem_cons_of_mem c hx)
    linarith

theorem elideLoopRev_append (w : Char → Int) (maxW ellW : Int) (l : List Char) :
    ∃ u, u ++ elideLoopRev w maxW ellW l = l := by
  induction l with
  | nil => exact ⟨[], rfl⟩
  | cons c rest ih =>
    rw [elideLoopRev]
    split
    · obtain ⟨u, hu⟩ := ih
      exact ⟨c :: u, by rw [List.cons_append, hu]⟩
    · exact ⟨[], rfl⟩

theorem elideLoopRev_fits_or_nil (w : Char → Int) (maxW ellW : Int) (l : List Char) :
    elideLoopRev w maxW ellW l = [] ∨ widthSum w (elideLoopRev w maxW ellW l) + ellW ≤ maxW := by
  induction l with
  | nil => exact Or.inl rfl
  | cons c rest ih =>
    rw [elideLoopRev]
    split
    · exact ih
    · next h => exact Or.inr (le_of_not_lt h)

theorem elideLoopRev_eq_nil (w : Char → Int) (maxW ellW : Int) (l : List Char)
    (hmax : maxW ≤ 0) (hell : 0 ≤ ellW) (hw : ∀ c ∈ l, 1 ≤ w c) :
    elideLoopRev w maxW ellW l = [] := by
  induction l with
  | nil => rfl
  | cons c rest ih =>
    rw [elideLoopRev, if_pos]
    · exact ih fun x hx => hw x (List.mem_cons_of_mem c hx)
    · have h1 : 1 ≤ w c := hw c (List.mem_cons_self c rest)
      have h2 : 0 ≤ widthSum w rest :=
        widthSum_nonneg w rest fun x hx =>
          le_trans zero_le_one (hw x (List.mem_cons_of_mem c hx))
      rw [widthSum_cons]
      linarith

theorem elideLoop_append (w : Char → Int) (maxW ellW : Int) (content : List Char) :
    ∃ t, elideLoop w maxW ellW content ++ t = content := by
  obtain ⟨u, hu⟩ := elideLoopRev_append w maxW ellW content.reverse
  refine ⟨u.reverse, ?_⟩
  have := congrArg List.reverse hu
  rw [List.reverse_append, List.reverse_reverse] at this
  exact this

/-- Claim C2: for every rich-text full text whose natural single-line width
is at most the available content width, the computed display text is the
full text itself, character for character (the original markup
round-trips unchanged). -/
theorem rich_fits_roundtrip (env : Env) (t : String) (mode : ElideMode) (maxW : Int)
    (hrich : env.mightBeRichText t = true)
    (hfits : widthSum env.charW (env.parse t) ≤ maxW) :
    computeElided env t mode maxW = t := by
  unfold computeElided
  rw [hrich]
  simp only [if_true]
  rw [if_pos hfits]

theorem rich_fits_roundtrip_witness :
    computeElided env0 ("ab") ElideMode.elideRight 5 = "ab" :=
  rich_fits_roundtrip env0 ("ab") ElideMode.elideRight 5 rfl (by decide)

/-- Claim C3: the character-deletion loop of the overflow path only ever
removes the character before the cursor (the result plus some deleted tail
is the original content), so it performs at most as many iterations as the
document's character count; it exits exactly when the remaining content
plus reserved ellipsis width fits or the cursor reaches the start; and a
zero or negative available width (with a nonnegative reserved width and
every character at least one pixel wide) drives it all the way to the
start of the document, yielding the empty result rather than failing. -/
theorem elideLoop_terminates (w : Char → Int) (maxW ellW : Int) (content : List Char) :
    (elideLoop w maxW ellW content).length ≤ content.length ∧
    (∃ t, elideLoop w maxW ellW content ++ t = content) ∧
    (elideLoop w maxW ellW content = [] ∨
      widthSum w (elideLoop w maxW ellW content) + ellW ≤ maxW) ∧
    (maxW ≤ 0 → 0 ≤ ellW → (∀ c ∈ content, 1 ≤ w c) →
      elideLoop w maxW ellW content = []) := by
  refine ⟨?_, elideLoop_append w maxW ellW content, ?_, ?_⟩
  · obtain ⟨t, ht⟩ := elideLoop_append w maxW ellW content
    calc (elideLoop w maxW ellW content).length
        ≤ (elideLoop w maxW ellW content).length + t.length := Nat.le_add_right _ _
      _ = content.length := by rw [← List.length_append, ht]
  · rcases elideLoopRev_fits_or_nil w maxW ellW content.reverse with h | h
    · exact Or.inl (by rw [elideLoop, h, List.reverse_nil])
    · exact Or.inr (by rw [elideLoop, widthSum_reverse]; exact h)
  · intro hmax hell hw
    rw [elideLoop, elideLoopRev_eq_nil w maxW ellW content.reverse hmax hell
      (fun c hc => hw c (List.mem_reverse.mp hc)), List.reverse_nil]

theorem elideLoop_terminates_witness :
    elideLoop (fun _ => 1) 0 3 [Char.ofNat 97, Char.ofNat 98] = [] :=
  (elideLoop_terminates (fun _ => 1) 0 3 [Char.ofNat 97, Char.ofNat 98]).2.2.2
    (by decide) (by decide) (by decide)

/-- Claim C4: on the rich-text overflow path, the loop reserves the measured
ellipsis width exactly when the elide mode is truncate-right (all other
modes reserve zero), and the serialized display text is the loop's
remaining content — a prefix of the original content, so it contains no
inserted marker — with the ellipsis marker appended exactly once for
truncate-right and not at all otherwise. -/
theorem rich_overflow_ellipsis (env : Env) (t : String) (mode : ElideMode) (maxW : Int)
    (hrich : env.mightBeRichText t = true)
    (hover : ¬ widthSum env.charW (env.parse t) ≤ maxW) :
    computeElided env t mode maxW =
      env.serialize
        (elideLoop env.charW maxW
            (if mode = ElideMode.elideRight then widthSum env.charW ellipsis.toList else 0)
            (env.parse t) ++
          (if mode = ElideMode.elideRight then ellipsis.toList else [])) ∧
    (∃ u, elideLoop env.charW maxW
        (if mode = ElideMode.elideRight then widthSum env.charW ellipsis.toList else 0)
        (env.parse t) ++ u = env.parse t) := by
  constructor
  · unfold computeElided
    rw [hrich]
    simp only [if_true]
    rw [if_neg hover]
    by_cases hm : mode = ElideMode.elideRight
    · simp only [hm, if_true]
    · simp only [if_neg hm, List.append_nil]
  · exact elideLoop_append env.charW maxW _ (env.parse t)

theorem rich_overflow_ellipsis_witness :
    computeElided env0 ("abc") ElideMode.elideRight 2 =
      env0.serialize
        (elideLoop env0.charW 2
            (if ElideMode.elideRight = ElideMode.elideRight
              then widthSum env0.charW ellipsis.toList else 0)
            (env0.parse ("abc")) ++
          (if ElideMode.elideRight = ElideMode.elideRight then ellipsis.toList else [])) :=
  (rich_overflow_ellipsis env0 ("abc") ElideMode.elideRight 2 rfl (by decide)).1

/-- Claim C5: after every elision recompute, the tooltip is the full text
(description empty) or full text and description joined by a line break
when the display text differs from the full text, and the description
alone when the display text equals the full text. -/
theorem tooltip_policy (env : Env) (g : Bool) (s : LabelState) :
    ((handleElision env g s).1).toolTip =
      if ((handleElision env g s).1).labelText ≠ ((handleElision env g s).1).text then
        if ((handleElision env g s).1).description = "" then ((handleElision env g s).1).text
        else ((handleElision env g s).1).text ++ "\n" ++ ((handleElision env g s).1).description
      else ((handleElision env g s).1).description := rfl

/-- Claim C6: setting the full text to its current value is a complete
no-op (state unchanged, no signal emitted); setting a different value
stores it, propagates it to the measurement proxy, recomputes elision via
the `elisionRequired(true)` signal and requests a geometry update. -/
theorem setText_noop_or_recompute (env : Env) (t : String) (s : LabelState) :
    (t = s.text → setText env t s = (s, [])) ∧
    (t ≠ s.text →
      (setText env t s).1.text = t ∧
      (setText env t s).1.metricsText = t ∧
      (setText env t s).1 = (handleElision env true { s with text := t, metricsText := t }).1 ∧
      (setText env t s).2 = [Ev.elisionRequired true, Ev.updateGeometry]) := by
  constructor
  · intro h
    simp [setText, h]
  · intro h
    simp [setText, if_neg h]
    exact ⟨rfl, rfl, rfl⟩

theorem setText_noop_or_recompute_witness :
    setText env0 ("abc") (construct env0 ("abc") rect0).1 = ((construct env0 ("abc") rect0).1, []) ∧
    (setText env0 ("xy") (construct env0 ("abc") rect0).1).2 =
      [Ev.elisionRequired true, Ev.updateGeometry] :=
  ⟨(setText_noop_or_recompute env0 ("abc") (construct env0 ("abc") rect0).1).1 (by decide),
   ((setText_noop_or_recompute env0 ("xy") (construct env0 ("abc") rect0).1).2 (by decide)).2.2.2⟩

/-- Claim C7: with an empty filter pattern the paint takes the fast path
and fills no highlight rectangle; with a non-empty pattern the displayed
string is scanned left to right case-insensitively, each successive search
starting one past the previous match's start, and for the text
"The Quick Fox" and pattern "qu" exactly one match is found, at offset 4,
the position of "Qu". -/
theorem filter_scan (env : Env) (s : LabelState) :
    (s.filterString = "" → paintEvent env s = []) ∧
    matchIndices ("The Quick Fox") ("qu") = [4] := by
  constructor
  · intro h
    simp [paintEvent, h]
  · decide

theorem filter_scan_witness :
    paintEvent env0 (initState rect0) = [] ∧ matchIndices ("The Quick Fox") ("qu") = [4] :=
  ⟨(filter_scan env0 (initState rect0)).1 rfl, (filter_scan env0 (initState rect0)).2⟩

/-- Claim C8 (amended): for every match, the highlight rectangle's left
edge is the content rectangle's left edge plus the measured width of the
preceding text, its width is the measured width of the matched span
(length taken from the pattern string) clipped to the content rectangle's
right edge, and its height is the full content-rectangle height; the draw
is skipped (while scanning continues) exactly when the computed left edge
reaches or exceeds the content rectangle's right edge, i.e. it is
performed only when the left edge is strictly left of the right edge. -/
theorem highlight_rect_geometry (env : Env) (s : LabelState) (i : Nat) :
    (s.textRect.left + widthSum env.charW (s.labelText.toList.take i) < s.textRect.right →
      rectForMatch env s i =
        some { left := s.textRect.left + widthSum env.charW (s.labelText.toList.take i)
               top := s.textRect.top
               width :=
                min (widthSum env.charW
                      ((s.labelText.toList.drop i).take s.filterString.length))
                  (s.textRect.right -
                    (s.textRect.left + widthSum env.charW (s.labelText.toList.take i)))
               height := s.textRect.height }) ∧
    (s.textRect.right ≤ s.textRect.left + widthSum env.charW (s.labelText.toList.take i) →
      rectForMatch env s i = none) ∧
    (s.filterString ≠ "" →
      paintEvent env s = (matchIndices s.labelText s.filterRegex).filterMap (rectForMatch env s)) := by
  refine ⟨?_, ?_, ?_⟩
  · intro h
    unfold rectForMatch
    simp only [if_pos h]
  · intro h
    unfold rectForMatch
    simp only [if_neg (not_lt.mpr h)]
  · intro h
    simp [paintEvent, h]

/-- A concrete state for the highlight geometry claims: displayed text "a",
filter pattern "a", content rectangle 10 pixels wide starting at 0. -/
def stW : LabelState :=
  { text := "a", description := "", elideMode := ElideMode.elideRight, elidedText := "a"
    filterString := "a", filterRegex := "a", metricsText := "a", labelText := "a"
    toolTip := "", textRect := ⟨0, 0, 10, 5⟩ }

theorem highlight_rect_geometry_witness :
    rectForMatch env0 stW 0 =
      some { left := stW.textRect.left + widthSum env0.charW (stW.labelText.toList.take 0)
             top := stW.textRect.top
             width :=
              min (widthSum env0.charW
                    ((stW.labelText.toList.drop 0).take stW.filterString.length))
                (stW.textRect.right -
                  (stW.textRect.left + widthSum env0.charW (stW.labelText.toList.take 0)))
             height := stW.textRect.height } :=
  (highlight_rect_geometry env0 stW 0).1 (by decide)

/-- A concrete state in which the match at offset 0 has its computed left
edge exactly at the content rectangle's right edge. -/
def stX : LabelState :=
  { text := "a", description := "", elideMode := ElideMode.elideRight, elidedText := "a"
    filterString := "a", filterRegex := "a", metricsText := "a", labelText := "a"
    toolTip := "", textRect := ⟨0, 0, 1, 10⟩ }

/-- Claim C8 counterexample: the scan finds the match at offset 0 and its
computed left edge equals — does not exceed — the content rectangle's
right edge, yet the draw is skipped: no rectangle is produced for the
match and the paint fills nothing.  The code draws only when the left edge
is strictly less than the right edge, not whenever it does not exceed it. -/
theorem highlight_skip_at_equal_edge :
    matchIndices stX.labelText stX.filterRegex = [0] ∧
    stX.textRect.left + widthSum env0.charW (stX.labelText.toList.take 0) = stX.textRect.right ∧
    rectForMatch env0 stX 0 = none ∧
    paintEvent env0 stX = [] := by
  decide

/-- Claim C9: the minimum size hint is the toolkit default minimum size
hint with its width clamped down to zero and its height preserved
unchanged (any `int`-valued height is at most `INT_MAX`). -/
theorem minimumSizeHint_clamps_width (env : Env)
    (h : env.defaultMinSizeHint.height ≤ intMax) :
    minimumSizeHint env =
      { width := min env.defaultMinSizeHint.width 0
        height := env.defaultMinSizeHint.height } := by
  unfold minimumSizeHint Size.boundedTo
  rw [Size.mk.injEq]
  exact ⟨rfl, min_eq_left h⟩

theorem minimumSizeHint_clamps_width_witness :
    minimumSizeHint env0 = { width := min (37 : Int) 0, height := (13 : Int) } :=
  minimumSizeHint_clamps_width env0 (by decide)

/-- Claim C10: setting the filter stores the pattern and compiles the
case-insensitive matcher from it, and changes nothing else: no signal, no
geometry update, no repaint request, and the full text, elided/display
text, tooltip, description, elide mode, measurement-proxy text and
geometry are all unchanged. -/
theorem setFilter_frame (f : String) (s : LabelState) :
    (setFilter f s).1.filterString = f ∧
    (setFilter f s).1.filterRegex = f ∧
    (setFilter f s).1.text = s.text ∧
    (setFilter f s).1.elidedText = s.elidedText ∧
    (setFilter f s).1.labelText = s.labelText ∧
    (setFilter f s).1.toolTip = s.toolTip ∧
    (setFilter f s).1.description = s.description ∧
    (setFilter f s).1.elideMode = s.elideMode ∧
    (setFilter f s).1.metricsText = s.metricsText ∧
    (setFilter f s).1.textRect = s.textRect ∧
    (setFilter f s).2 = [] :=
  ⟨rfl, rfl, rfl, rfl, rfl, rfl, rfl, rfl, rfl, rfl, rfl⟩

/-- Claim C1 (amended): the display invariant — displayed text equals the
elision computation at the current full text, available width and elide
mode — is established by every elision recompute (`handleElision`, hence
by `setText` with a new value and by every resize) and preserved by
`setText`, `setDescription` and `setFilter`; `setElideMode` is not a
recompute trigger (it only stores the mode and requests a repaint), so
after it the displayed text reflects the previous mode until the next
recompute. -/
theorem display_inv_preserved (env : Env) (s : LabelState) :
    (∀ g, DisplayInv env (handleElision env g s).1) ∧
    (DisplayInv env s → ∀ t, DisplayInv env (setText env t s).1) ∧
    (DisplayInv env s → ∀ d, DisplayInv env (setDescription d s).1) ∧
    (DisplayInv env s → ∀ f, DisplayInv env (setFilter f s).1) ∧
    (∀ r, DisplayInv env (resizeEvent env r s).1) := by
  refine ⟨fun g => rfl, ?_, fun h d => h, fun h f => h, fun r => rfl⟩
  intro h t
  by_cases ht : t = s.text
  · simp only [setText, if_pos ht]
    exact h
  · simp only [setText, if_neg ht]
    rfl

theorem display_inv_preserved_witness :
    DisplayInv env0 (setDescription ("d") (construct env0 ("abc") rect0).1).1 :=
  (display_inv_preserved env0 (construct env0 ("abc") rect0).1).2.2.1 (by decide) ("d")

/-- Claim C1 counterexample: construct the label with overflowing rich text
"abc" in a 2-pixel rectangle (the recompute stores the truncate-right
result "..."), then switch the elide mode to no-truncation.  The displayed
text is still "...", but the elision computation at the current full text,
width and mode yields "ab": the displayed text is stored independently of
a recompute trigger and does not reflect the new mode. -/
theorem display_inv_broken_by_setElideMode :
    ¬ DisplayInv env0 (setElideMode ElideMode.elideNone (construct env0 ("abc") rect0).1).1 := by
  decide

end AzQtComponents
